import Mathlib

/-!
Verification of the portfolio website's JavaScript modules
(assets/js/utils.js, assets/js/theme.js, assets/js/render.js) against its
natural-language specification.

The JavaScript is shallowly embedded: pure functions become Lean functions,
DOM and localStorage state become explicit records, browser event handlers
become state transitions, and fallible operations return Option.  Machine
numbers that matter here are small integers, modelled as Int or Nat.
-/

namespace Portfolio

/-! ## JavaScript string primitives -/

/-- The characters matched by the JavaScript regex class `\s`
(ECMA-262 WhiteSpace and LineTerminator). -/
def isJsSpace (c : Char) : Bool :=
  c = ' ' || c = '\t' || c = '\n' || c = '\r' || c = '\x0b' || c = '\x0c' ||
  c = '\u00a0' || c = '\u1680' || ('\u2000' ≤ c && c ≤ '\u200a') ||
  c = '\u2028' || c = '\u2029' || c = '\u202f' || c = '\u205f' ||
  c = '\u3000' || c = '\ufeff'

/-- JavaScript `String.prototype.trim`: strip `\s` characters from both ends. -/
def jsTrim (s : String) : String :=
  ⟨((s.data.dropWhile isJsSpace).reverse.dropWhile isJsSpace).reverse⟩

/-- JavaScript `String.prototype.split` with a one-character separator,
on character lists. -/
def splitOnCharAux (sep : Char) : List Char → List Char → List (List Char)
  | [], acc => [acc.reverse]
  | c :: rest, acc =>
    if c = sep then acc.reverse :: splitOnCharAux sep rest []
    else splitOnCharAux sep rest (c :: acc)

def splitOnChar (sep : Char) (cs : List Char) : List (List Char) :=
  splitOnCharAux sep cs []

/-- `Utils.isValidEmail` from utils.js: tests the regex
`/^[^\s@]+@[^\s@]+\.[^\s@]+$/`.  A string matches iff it factors as
`a ++ "@" ++ b ++ "." ++ c` with `a`, `b`, `c` nonempty and free of
whitespace and `@` (`b` and `c` may themselves contain dots).  Executable
characterisation: the string splits at `@` into exactly two parts; the local
part is nonempty and whitespace-free; the domain is whitespace-free and has a
dot that is neither its first nor its last character. -/
def isValidEmail (s : String) : Bool :=
  match splitOnChar '@' s.data with
  | [localPart, domain] =>
    localPart ≠ [] && localPart.all (fun c => !isJsSpace c) &&
    domain.all (fun c => !isJsSpace c) &&
    ((domain.drop 1).dropLast.contains '.')
  | _ => false

/-! ## Contact form validation (render.js, ContactFormManager) -/

/-- A form field as `ContactFormManager.validateField` sees it: the DOM
`type`, the `required` attribute, the DOM `minLength` property (which is `-1`
when no `minlength` attribute is declared), and the raw string value. -/
structure FormField where
  type : String
  required : Bool
  minLength : Int
  value : String
deriving DecidableEq

/-- `ContactFormManager.validateField`.  On the trimmed value it checks, in
order: required-and-empty, a nonempty value of an email field failing
`isValidEmail`, and a nonempty value shorter than a truthy `minLength`
(`0` is falsy; the undeclared default `-1` is truthy but never exceeds a
length). -/
def validateField (f : FormField) : Bool :=
  let value := jsTrim f.value
  let requiredFail : Bool := f.required && value = ""
  let emailFail : Bool := f.type = "email" && value ≠ "" && !isValidEmail value
  let minLenFail : Bool := value ≠ "" && f.minLength ≠ 0 &&
    (value.length : Int) < f.minLength
  !(requiredFail || emailFail || minLenFail)

/-- `ContactFormManager.validateForm`: the conjunction of `validateField`
over the form's `required` fields (`input[required], textarea[required]`). -/
def validateForm (fields : List FormField) : Bool :=
  (fields.filter (·.required)).all validateField

/-- `ContactFormManager.handleSubmit`, reduced to what it submits: it returns
early, submitting nothing, when `validateForm` fails, and otherwise submits
the form data. -/
def handleSubmit (fields : List FormField) : Option (List FormField) :=
  if validateForm fields then some fields else none

/-! ## Theme manager (theme.js, ThemeManager) -/

/-- The browser state the theme manager touches: the manager's
`currentTheme` field, the `data-theme` attribute on the document element,
the parsed localStorage value under the key `'portfolio-theme'` (`none`
models an absent or `null` entry), and the `theme-color` meta content. -/
structure ThemeState where
  currentTheme : String
  dataTheme : Option String
  stored : Option String
  metaThemeColor : Option String
deriving DecidableEq

/-- The `colors` table of `updateMetaThemeColor`; `none` models the
`undefined` lookup for any other theme name. -/
def themeColors (theme : String) : Option String :=
  if theme = "light" then some "#ffffff"
  else if theme = "dark" then some "#0f172a"
  else none

/-- `ThemeManager.applyTheme`: sets the `data-theme` attribute, records the
current theme, persists it under `'portfolio-theme'` (storage writes are
assumed to succeed, as the claim grants), and updates the meta theme-color. -/
def applyTheme (theme : String) (_st : ThemeState) : ThemeState :=
  { currentTheme := theme
    dataTheme := some theme
    stored := some theme
    metaThemeColor := themeColors theme }

/-- `ThemeManager.toggleTheme`: applies `'dark'` when the current theme is
`'light'` and `'light'` otherwise.  (`updateToggleButton`, `animateToggle`
and `trackThemeChange` do not touch the modelled state.) -/
def toggleTheme (st : ThemeState) : ThemeState :=
  let newTheme := if st.currentTheme = "light" then "dark" else "light"
  applyTheme newTheme st

/-- `ThemeManager.setTheme`: applies the theme only when it is `'light'` or
`'dark'`, otherwise does nothing. -/
def setTheme (theme : String) (st : ThemeState) : ThemeState :=
  if theme = "light" ∨ theme = "dark" then applyTheme theme st else st

/-- `this.getStoredTheme() || this.getSystemTheme()`: JavaScript `||` falls
through on falsy values, i.e. an absent or `null` entry and the empty
string. -/
def initialTheme (stored : Option String) (systemTheme : String) : String :=
  match stored with
  | some t => if t = "" then systemTheme else t
  | none => systemTheme

/-- `new ThemeManager()` followed by `init`: the current theme is the stored
one with the system theme as fallback, and `applyTheme` runs on it. -/
def constructTheme (systemTheme : String) (st : ThemeState) : ThemeState :=
  applyTheme (initialTheme st.stored systemTheme) st

/-- The `prefers-color-scheme` change listener of `bindEvents`: it applies
the system theme only when `getStoredTheme()` is falsy (absent, `null`, or
the empty string). -/
def systemThemeChange (matchesDark : Bool) (st : ThemeState) : ThemeState :=
  let storedFalsy : Bool :=
    match st.stored with
    | none => true
    | some t => t = ""
  if storedFalsy then applyTheme (if matchesDark then "dark" else "light") st
  else st

/-! ## Project filtering (render.js, ComponentRenderer) -/

/-- A project entry of projects.json as the filtering code uses it; `company`
models the string rendered into the card's `data-company` and the button's
`data-filter` attributes. -/
structure Project where
  company : String
  title : String
deriving DecidableEq

/-- `[...new Set(xs)]`: deduplication keeping first occurrences in order. -/
def jsSetDedup {α : Type} [DecidableEq α] (xs : List α) : List α :=
  xs.foldl (fun acc c => if c ∈ acc then acc else acc ++ [c]) []

/-- A rendered filter button: its `data-filter` attribute and whether it has
the class `filter-btn--active`. -/
structure FilterButton where
  filter : String
  active : Bool
deriving DecidableEq

/-- A rendered project card: its `data-company` attribute and whether it is
displayed (`style.display = 'block'` versus `'none'`). -/
structure ProjectCard where
  company : String
  displayed : Bool
deriving DecidableEq

/-- The filtering-relevant DOM state of the projects section. -/
structure ProjectsView where
  buttons : List FilterButton
  cards : List ProjectCard
deriving DecidableEq

/-- `ComponentRenderer.generateProjectFilters`: one button per distinct
company (first-occurrence order), the first one carrying
`filter-btn--active`. -/
def generateProjectFilters (projects : List Project) : List FilterButton :=
  let companies := jsSetDedup (projects.map (·.company))
  companies.enum.map (fun p => ⟨p.2, p.1 = 0⟩)

/-- `ComponentRenderer.applyProjectFilter`: a card is displayed iff its
`data-company` equals the filter. -/
def applyProjectFilter (cards : List ProjectCard) (filter : String) :
    List ProjectCard :=
  cards.map (fun card => { card with displayed := card.company = filter })

/-- Rendering the projects section then `initProjectFiltering`: the cards are
created from the project list, and when at least one filter button exists the
filter of the first button is applied. -/
def renderProjectsFiltering (projects : List Project) : ProjectsView :=
  let buttons := generateProjectFilters projects
  let cards := projects.map (fun p => ⟨p.company, true⟩)
  match buttons with
  | [] => ⟨buttons, cards⟩
  | b :: _ => ⟨buttons, applyProjectFilter cards b.filter⟩

/-- The click handler `initProjectFiltering` installs on button `i`: every
button loses `filter-btn--active`, the clicked button gains it, and the
clicked button's filter is applied to the cards.  An out-of-range index means
no button was clicked. -/
def clickFilter (v : ProjectsView) (i : Nat) : ProjectsView :=
  match v.buttons[i]? with
  | none => v
  | some b =>
    { buttons := v.buttons.enum.map (fun p => { p.2 with active := p.1 = i })
      cards := applyProjectFilter v.cards b.filter }

/-! ## JSON values, fetching and the data cache (utils.js, render.js) -/

/-- JSON values.  Numbers are modelled as integers − the only numbers this
code produces or stores; floating point is out of scope. -/
inductive Json where
  | null : Json
  | bool : Bool → Json
  | num : Int → Json
  | str : String → Json
  | arr : List Json → Json
  | obj : List (String × Json) → Json

/-- JavaScript truthiness of a JSON value. -/
def Json.truthy : Json → Bool
  | .null => false
  | .bool b => b
  | .num n => n ≠ 0
  | .str s => s ≠ ""
  | .arr _ => true
  | .obj _ => true

/-- The environment's answer to one `fetch`: either the request itself
rejects, or a response arrives with its `ok` flag and a body whose JSON
parse is `some v` (valid) or `none` (`response.json()` throws). -/
inductive FetchOutcome where
  | netFail : FetchOutcome
  | resp : Bool → Option Json → FetchOutcome

/-- `Utils.fetchData`: the parsed body of an ok response; `null` — never a
propagated exception, every `throw` lands in the surrounding `catch` — when
the request rejects, the response is not ok, or the body fails to parse. -/
def fetchData : FetchOutcome → Json
  | .netFail => .null
  | .resp ok body =>
    if ok then
      match body with
      | some v => v
      | none => .null
    else .null

/-- JavaScript `String.prototype.replace` with a plain-string pattern:
replace the first occurrence only. -/
def replaceFirst (pat repl : List Char) : List Char → List Char
  | [] => []
  | c :: rest =>
    if pat.isPrefixOf (c :: rest) then repl ++ (c :: rest).drop pat.length
    else c :: replaceFirst pat repl rest

/-- The file list of `ComponentRenderer.loadAllData`. -/
def dataFiles : List String :=
  ["assets/data/about.json", "assets/data/projects.json",
   "assets/data/experience.json", "assets/data/skills.json",
   "assets/data/certifications.json", "assets/data/contact.json"]

/-- `file.split('/').pop().replace('.json', '')`. -/
def dataKey (file : String) : String :=
  ⟨replaceFirst ".json".data [] ((splitOnChar '/' file.data).getLastD [])⟩

/-- `ComponentRenderer.loadAllData`: fetch every data file and cache the
result under its key only when the returned data is truthy
(`if (data) this.dataCache.set(key, data)`). -/
def loadAllData (env : String → FetchOutcome) : List (String × Json) :=
  dataFiles.foldr
    (fun file cache =>
      if (fetchData (env file)).truthy then (dataKey file, fetchData (env file)) :: cache
      else cache) []

/-! ## Navigation manager (render.js, NavigationManager) -/

/-- A `section[id]` element as `updateActiveNavLink` reads it. -/
structure PageSection where
  id : String
  offsetTop : Int
  offsetHeight : Int
deriving DecidableEq

/-- A `.navbar__link` element: its `href` attribute and whether it has the
class `navbar__link--active`. -/
structure NavLink where
  href : String
  active : Bool
deriving DecidableEq

/-- The navigation manager's state: its `currentSection` field and the nav
links. -/
structure NavState where
  currentSection : String
  links : List NavLink
deriving DecidableEq

/-- `scrollPosition >= sectionTop && scrollPosition < sectionTop +
sectionHeight` for one section. -/
def sectionContainsPos (pos : Int) (s : PageSection) : Bool :=
  pos ≥ s.offsetTop && pos < s.offsetTop + s.offsetHeight

/-- The section-selection loop of `updateActiveNavLink`: starting from `''`,
each section containing the reference point overwrites `activeSection`, so
the last such section in document order wins. -/
def computeActiveSection (sections : List PageSection) (pos : Int) : String :=
  sections.foldl (fun acc s => if sectionContainsPos pos s then s.id else acc) ""

/-- `NavigationManager.updateActiveNavLink`: computes the reference point
`scrollY + navbarHeight + 100`, selects the active section, and — only when
it differs from `currentSection` — rewrites every link's active class to
`href === '#' + activeSection`. -/
def updateActiveNavLink (sections : List PageSection) (navbarHeight scrollY : Int)
    (st : NavState) : NavState :=
  let pos := scrollY + navbarHeight + 100
  let act := computeActiveSection sections pos
  if act = st.currentSection then st
  else
    { currentSection := act
      links := st.links.map (fun l => { l with active := l.href = "#" ++ act }) }

/-- Consistency of the nav-link classes with `currentSection`; it holds
initially (no link has the active class and `currentSection` is `''`,
provided no link's href is the bare `'#'`). -/
def NavConsistent (st : NavState) : Prop :=
  ∀ l ∈ st.links, l.active = true ↔ l.href = "#" ++ st.currentSection

/-! ## Debounce (utils.js) -/

/-- Event-sequence semantics of a `debounce(func, wait)` wrapper.  The input
is the chronological list of calls to the wrapper as (time, argument) pairs;
the state is the pending timer (`clearTimeout(timeout)` then
`setTimeout(later, wait)` replaces it on every call).  A pending timer due
strictly before the next call fires first (`later` runs `func` with the
arguments captured at scheduling time); a call at or before the due time
wins the tie, since its `clearTimeout` cancels the timer.  The output is
the chronological list of `func` invocations as (time, argument) pairs. -/
def debounceRun {α : Type} (wait : Nat) :
    Option (Nat × α) → List (Nat × α) → List (Nat × α)
  | none, [] => []
  | some p, [] => [p]
  | none, (t, a) :: rest => debounceRun wait (some (t + wait, a)) rest
  | some (due, b), (t, a) :: rest =>
    if due < t then (due, b) :: debounceRun wait (some (t + wait, a)) rest
    else debounceRun wait (some (t + wait, a)) rest

/-- `Utils.debounce`: run the event semantics from the initial state with no
pending timer. -/
def debounce {α : Type} (wait : Nat) (calls : List (Nat × α)) : List (Nat × α) :=
  debounceRun wait none calls

/-- Modelled from the spec side of C7: the declarative timeline — a call's
scheduled invocation survives iff no further call arrives within `wait`
milliseconds, and it runs `wait` after that call with that call's
arguments. -/
def debounceSpecFires {α : Type} (wait : Nat) : List (Nat × α) → List (Nat × α)
  | [] => []
  | [(t, a)] => [(t + wait, a)]
  | (t, a) :: (t2, b) :: rest =>
    if t + wait < t2 then (t + wait, a) :: debounceSpecFires wait ((t2, b) :: rest)
    else debounceSpecFires wait ((t2, b) :: rest)

/-! ## Rendering into the DOM (render.js, ComponentRenderer) -/

mutual

/-- Structural equality test on JSON values.  JavaScript compares primitive
JSON values (strings, numbers, booleans, null) by value, which this models
faithfully; object identity of parsed arrays/objects is approximated
structurally. -/
def Json.beq : Json → Json → Bool
  | .null, .null => true
  | .bool a, .bool b => a = b
  | .num a, .num b => a = b
  | .str a, .str b => a = b
  | .arr a, .arr b => jsonListBeq a b
  | .obj a, .obj b => jsonObjBeq a b
  | _, _ => false

/-- Elementwise `Json.beq` on arrays. -/
def jsonListBeq : List Json → List Json → Bool
  | [], [] => true
  | a :: as, b :: bs => Json.beq a b && jsonListBeq as bs
  | _, _ => false

/-- Fieldwise `Json.beq` on objects. -/
def jsonObjBeq : List (String × Json) → List (String × Json) → Bool
  | [], [] => true
  | (k1, v1) :: as, (k2, v2) :: bs => k1 = k2 && Json.beq v1 v2 && jsonObjBeq as bs
  | _, _ => false

end

/-- JavaScript property access `o[k]` on a parsed JSON value: a lookup on
objects (the data files have distinct keys), `undefined` (`none`)
otherwise. -/
def Json.getField : Json → String → Option Json
  | .obj fields, k => (fields.find? (fun f => f.1 = k)).map (·.2)
  | _, _ => none

/-- Decimal digits of a natural number, most significant first. -/
def natToDigits (n : Nat) : List Char :=
  if h : n < 10 then [Char.ofNat (48 + n)]
  else natToDigits (n / 10) ++ [Char.ofNat (48 + n % 10)]
termination_by n
decreasing_by exact Nat.div_lt_self (by omega) (by omega)

/-- JavaScript number-to-string conversion for integers. -/
def jsIntToString (n : Int) : String :=
  if n < 0 then "-" ++ String.mk (natToDigits (-n).toNat)
  else String.mk (natToDigits n.toNat)

mutual

/-- JavaScript string interpolation `${v}` of a defined JSON value:
`Array.prototype.toString` joins with commas, rendering null elements as
empty; objects print as `[object Object]`. -/
def jsToString : Json → String
  | .null => "null"
  | .bool b => if b then "true" else "false"
  | .num n => jsIntToString n
  | .str s => s
  | .arr xs => String.intercalate "," (jsArrParts xs)
  | .obj _ => "[object Object]"

/-- The comma-joined parts of `Array.prototype.toString`. -/
def jsArrParts : List Json → List String
  | [] => []
  | .null :: t => "" :: jsArrParts t
  | j :: t => jsToString j :: jsArrParts t

end

/-- Interpolation of a possibly-`undefined` value (property access result):
`${undefined}` renders as the string `undefined`. -/
def jsValToString : Option Json → String
  | none => "undefined"
  | some v => jsToString v

/-- Set-style equality on possibly-`undefined` values: `undefined` equals
only itself and differs from every JSON value (including `null`). -/
def jsValBeq : Option Json → Option Json → Bool
  | none, none => true
  | some a, some b => Json.beq a b
  | _, _ => false

/-- `${o.k}` — property access followed by interpolation. -/
def interpField (o : Json) (k : String) : String :=
  jsValToString (o.getField k)

/-- `[...new Set(xs)]` for an arbitrary equality test: deduplication keeping
first occurrences in order. -/
def jsSetDedupBy {α : Type} (eq : α → α → Bool) (xs : List α) : List α :=
  xs.foldl (fun acc c => if acc.any (eq c) then acc else acc ++ [c]) []

/-- The UTF-8 encoding of a character, as byte values. -/
def utf8Bytes (c : Char) : List Nat :=
  let n := c.toNat
  if n < 0x80 then [n]
  else if n < 0x800 then [0xc0 + n / 64, 0x80 + n % 64]
  else if n < 0x10000 then [0xe0 + n / 4096, 0x80 + (n / 64) % 64, 0x80 + n % 64]
  else [0xf0 + n / 262144, 0x80 + (n / 4096) % 64, 0x80 + (n / 64) % 64, 0x80 + n % 64]

/-- An uppercase hexadecimal digit. -/
def hexUpper (n : Nat) : Char :=
  "0123456789ABCDEF".data.getD n (Char.ofNat 48)

/-- The characters `encodeURIComponent` leaves unescaped. -/
def isUriUnreserved (c : Char) : Bool :=
  c.isAlphanum || c = '-' || c = '_' || c = '.' || c = '!' || c = '~' ||
  c = '*' || c = '\x27' || c = '(' || c = ')'

/-- JavaScript `encodeURIComponent`: unreserved characters pass through,
everything else is percent-encoded bytewise in UTF-8. -/
def encodeURIComponent (s : String) : String :=
  String.join (s.data.map (fun c =>
    if isUriUnreserved c then String.mk [c]
    else String.join ((utf8Bytes c).map
      (fun b => "%" ++ String.mk [hexUpper (b / 16), hexUpper (b % 16)]))))

/-- The innerHTML of the DOM containers the modelled render functions write;
`none` models an absent container.  (Template whitespace is normalised
away.) -/
structure Dom where
  aboutBio : Option String
  projectFilters : Option String
  projectsGrid : Option String
  contactCards : Option String
  footerSocial : Option String
deriving DecidableEq

/-- `this.dataCache.get(k)` on the renderer's cache. -/
def cacheGet (cache : List (String × Json)) (k : String) : Option Json :=
  (cache.find? (fun e => e.1 = k)).map (·.2)

/-- `ComponentRenderer.renderAboutSection`: returns untouched (`some dom`)
when the cached about data is absent or falsy, the `#about-bio` container is
missing, or `data.bio` is absent or falsy; otherwise rewrites the container
with one `<p>` per paragraph.  `none` models the TypeError thrown by
`data.bio.map` on a truthy non-array. -/
def renderAboutSection (cache : List (String × Json)) (dom : Dom) : Option Dom :=
  match cacheGet cache "about" with
  | none => some dom
  | some data =>
    if !data.truthy then some dom
    else
      match dom.aboutBio with
      | none => some dom
      | some _ =>
        match data.getField "bio" with
        | none => some dom
        | some bio =>
          if !bio.truthy then some dom
          else
            match bio with
            | .arr paragraphs =>
              let html := String.join (paragraphs.map
                (fun p => "<p>" ++ jsToString p ++ "</p>"))
              some { dom with aboutBio := some html }
            | _ => none

/-- The filter-button markup of `generateProjectFilters`: one button per
distinct `project.company` value, the first marked active. -/
def filterButtonsHtml (projects : List Json) : String :=
  let companies := jsSetDedupBy jsValBeq (projects.map (fun p => p.getField "company"))
  String.join (companies.enum.map (fun q =>
    "<button class=\"filter-btn " ++ (if q.1 = 0 then "filter-btn--active" else "") ++
    "\" data-filter=\"" ++ jsValToString q.2 ++ "\">" ++ jsValToString q.2 ++
    "</button>"))

/-- The markup of one project card from the `renderProjectsSection`
template. -/
def projectCardHtml (p : Json) : String :=
  "<div class=\"project-card\" data-company=\"" ++ interpField p "company" ++
    "\" onclick=\"window.location.href='project-detail.html?project=" ++
    encodeURIComponent (interpField p "title") ++ "'\">" ++
  "<div class=\"project-card__image\" data-project-image=\"" ++
    interpField p "title" ++ "\">" ++
  (match p.getField "image" with
   | some img =>
     if img.truthy then
       "<img src=\"" ++ jsToString img ++ "\" alt=\"" ++ interpField p "title" ++
       "\" onerror=\"this.parentElement.classList.add('project-card__image--no-image'); this.style.display='none';\" onload=\"this.parentElement.classList.remove('project-card__image--no-image');\">"
     else ""
   | none => "") ++
  "</div><div class=\"project-card__content\">" ++
  "<div class=\"project-card__company\">" ++ interpField p "company" ++ "</div>" ++
  "<h3 class=\"project-card__title\">" ++ interpField p "title" ++ "</h3>" ++
  "<div class=\"project-card__actions\">" ++
  (match p.getField "demo" with
   | some demo =>
     if demo.truthy then
       "<a href=\"" ++ jsToString demo ++
       "\" class=\"btn btn--primary btn--small\" target=\"_blank\" rel=\"noopener\" onclick=\"event.stopPropagation()\"><i class=\"fas fa-external-link-alt\"></i>Live Demo</a>"
     else ""
   | none => "") ++
  "<a href=\"project-detail.html?project=" ++
    encodeURIComponent (interpField p "title") ++
    "\" class=\"btn btn--outline btn--small\" onclick=\"event.stopPropagation()\"><i class=\"fas fa-info-circle\"></i>View Details</a>" ++
  "</div></div></div>"

/-- `ComponentRenderer.renderProjectsSection`: returns untouched when the
cached projects data is absent or falsy or the `#projects-grid` container is
missing; otherwise writes the filter buttons (when `#project-filters`
exists) and the project cards.  `none` models the TypeError thrown by
`.map` on a truthy non-array. -/
def renderProjectsSection (cache : List (String × Json)) (dom : Dom) : Option Dom :=
  match cacheGet cache "projects" with
  | none => some dom
  | some data =>
    if !data.truthy then some dom
    else
      match dom.projectsGrid with
      | none => some dom
      | some _ =>
        match data with
        | .arr projects =>
          let dom1 :=
            match dom.projectFilters with
            | none => dom
            | some _ => { dom with projectFilters := some (filterButtonsHtml projects) }
          let grid := String.join (projects.map projectCardHtml)
          some { dom1 with projectsGrid := some grid }
        | _ => none

/-! ## Contact section rendering (render.js) -/

/-- One entry of contact.json as the contact renderers use it. -/
structure Contact where
  title : String
  link : String
  icon : String
deriving DecidableEq

/-- JavaScript `String.prototype.startsWith`. -/
def jsStartsWith (pre s : String) : Bool :=
  pre.data.isPrefixOf s.data

/-- The action label of a contact card
(`contact.title === 'Email' ? 'Send Email' : ...`). -/
def contactActionLabel (title : String) : String :=
  if title = "Email" then "Send Email"
  else if title = "Phone" then "Call Now"
  else if title = "LinkedIn" then "Connect"
  else if title = "WhatsApp" then "Chat Now"
  else "Visit"

/-- The markup of one contact card from the `renderContactSection`
template. -/
def contactCardHtml (c : Contact) : String :=
  "<a href=\"" ++ c.link ++ "\" class=\"contact-card\" " ++
  (if jsStartsWith "http" c.link then "target=\"_blank\" rel=\"noopener\"" else "") ++
  "><div class=\"contact-card__icon\"><i class=\"" ++ c.icon ++ "\"></i></div>" ++
  "<h3 class=\"contact-card__title\">" ++ c.title ++ "</h3>" ++
  "<span class=\"contact-card__action\">" ++ contactActionLabel c.title ++
  "</span></a>"

/-- The markup of one footer social link from the `renderFooterSocial`
template. -/
def footerSocialLinkHtml (s : Contact) : String :=
  "<a href=\"" ++ s.link ++ "\" class=\"footer__social-link\" aria-label=\"" ++
  s.title ++ "\" target=\"_blank\" rel=\"noopener\"><i class=\"" ++ s.icon ++
  "\"></i></a>"

/-- `data.filter(contact => contact.title !== 'GitHub')` — the contact-card
entries. -/
def contactCardsData (data : List Contact) : List Contact :=
  data.filter (fun c => c.title ≠ "GitHub")

/-- `contactData.filter(contact => contact.title === 'GitHub' ||
contact.title === 'LinkedIn')` — the footer social entries. -/
def socialLinksData (data : List Contact) : List Contact :=
  data.filter (fun c => c.title = "GitHub" || c.title = "LinkedIn")

/-- `ComponentRenderer.renderFooterSocial`: returns untouched when the
`.footer__social` container is missing or the data is absent; otherwise
writes one link per GitHub/LinkedIn entry. -/
def renderFooterSocial (contactData : Option (List Contact)) (dom : Dom) : Dom :=
  match dom.footerSocial, contactData with
  | some _, some contacts =>
    let html := String.join ((socialLinksData contacts).map footerSocialLinkHtml)
    { dom with footerSocial := some html }
  | _, _ => dom

/-- `ComponentRenderer.renderContactSection`: returns untouched when the
cached contact data is absent; otherwise writes the contact cards for the
non-GitHub entries (when the `.contact__cards` container exists) and then
the footer social links from the original data. -/
def renderContactSection (data : Option (List Contact)) (dom : Dom) : Dom :=
  match data with
  | none => dom
  | some contacts =>
    let dom1 :=
      match dom.contactCards with
      | none => dom
      | some _ =>
        let html := String.join ((contactCardsData contacts).map contactCardHtml)
        { dom with contactCards := some html }
    renderFooterSocial (some contacts) dom1

/-! ## localStorage and JSON round-trip (utils.js, storage) -/

/-- `JSON.stringify` escaping of one string character: quote and backslash,
the short control escapes, `\u00XX` for the remaining control characters,
and everything else verbatim. -/
def escapeChar (c : Char) : List Char :=
  if c = '"' then ['\\', '"']
  else if c = '\\' then ['\\', '\\']
  else if c = '\x08' then ['\\', 'b']
  else if c = '\t' then ['\\', 't']
  else if c = '\n' then ['\\', 'n']
  else if c = '\x0c' then ['\\', 'f']
  else if c = '\r' then ['\\', 'r']
  else if c.toNat < 32 then
    ['\\', 'u', '0', '0',
     "0123456789abcdef".data.getD (c.toNat / 16) (Char.ofNat 48),
     "0123456789abcdef".data.getD (c.toNat % 16) (Char.ofNat 48)]
  else [c]

/-- A `JSON.stringify` string literal, character level. -/
def quoteChars (cs : List Char) : List Char :=
  '"' :: (cs.map escapeChar).flatten ++ ['"']

/-- The characters of `JSON.stringify` for an integer. -/
def intDigits (n : Int) : List Char :=
  if n < 0 then '-' :: natToDigits (-n).toNat else natToDigits n.toNat

mutual

/-- The characters `JSON.stringify` produces (no spacing argument): JSON
with no whitespace, string escapes as in `escapeChar`, object fields in
list order. -/
def stringifyChars : Json → List Char
  | .null => "null".data
  | .bool true => "true".data
  | .bool false => "false".data
  | .num n => intDigits n
  | .str s => quoteChars s.data
  | .arr xs => '[' :: stringifyArrChars xs ++ [']']
  | .obj fs => '\x7b' :: stringifyObjChars fs ++ ['\x7d']

/-- Comma-separated stringified array elements. -/
def stringifyArrChars : List Json → List Char
  | [] => []
  | [x] => stringifyChars x
  | x :: y :: t => stringifyChars x ++ ',' :: stringifyArrChars (y :: t)

/-- Comma-separated stringified `key:value` object fields. -/
def stringifyObjChars : List (String × Json) → List Char
  | [] => []
  | [(k, v)] => quoteChars k.data ++ ':' :: stringifyChars v
  | (k, v) :: y :: t =>
    quoteChars k.data ++ ':' :: stringifyChars v ++ ',' :: stringifyObjChars (y :: t)

end

/-- `JSON.stringify` on the modelled JSON values. -/
def Json.stringify (v : Json) : String :=
  ⟨stringifyChars v⟩

/-- JSON insignificant whitespace. -/
def jsonWs (c : Char) : Bool :=
  c = ' ' || c = '\t' || c = '\n' || c = '\r'

def skipWs (cs : List Char) : List Char :=
  cs.dropWhile jsonWs

/-- The value of one hexadecimal digit. -/
def hexDigitVal (c : Char) : Option Nat :=
  if '0' ≤ c && c ≤ '9' then some (c.toNat - 48)
  else if 'a' ≤ c && c ≤ 'f' then some (c.toNat - 87)
  else if 'A' ≤ c && c ≤ 'F' then some (c.toNat - 55)
  else none

/-- The body of a JSON string literal, after the opening quote: the decoded
characters and the input after the closing quote.  (Lenient on unescaped
control characters, which `JSON.stringify` never emits.) -/
def parseStringBody : List Char → Option (List Char × List Char)
  | [] => none
  | c :: rest =>
    if c = '"' then some ([], rest)
    else if c = '\\' then
      match rest with
      | [] => none
      | esc :: rest1 =>
        if esc = '"' then (parseStringBody rest1).map (fun r => ('"' :: r.1, r.2))
        else if esc = '\\' then (parseStringBody rest1).map (fun r => ('\\' :: r.1, r.2))
        else if esc = '/' then (parseStringBody rest1).map (fun r => ('/' :: r.1, r.2))
        else if esc = 'b' then (parseStringBody rest1).map (fun r => ('\x08' :: r.1, r.2))
        else if esc = 'f' then (parseStringBody rest1).map (fun r => ('\x0c' :: r.1, r.2))
        else if esc = 'n' then (parseStringBody rest1).map (fun r => ('\n' :: r.1, r.2))
        else if esc = 'r' then (parseStringBody rest1).map (fun r => ('\r' :: r.1, r.2))
        else if esc = 't' then (parseStringBody rest1).map (fun r => ('\t' :: r.1, r.2))
        else if esc = 'u' then
          match rest1 with
          | h1 :: h2 :: h3 :: h4 :: rest2 =>
            match hexDigitVal h1, hexDigitVal h2, hexDigitVal h3, hexDigitVal h4 with
            | some d1, some d2, some d3, some d4 =>
              (parseStringBody rest2).map (fun r =>
                (Char.ofNat (4096 * d1 + 256 * d2 + 16 * d3 + d4) :: r.1, r.2))
            | _, _, _, _ => none
          | _ => none
        else none
    else (parseStringBody rest).map (fun r => (c :: r.1, r.2))

/-- The numeric value of a digit string. -/
def digitsToNat (ds : List Char) : Nat :=
  ds.foldl (fun acc d => acc * 10 + (d.toNat - 48)) 0

/-- A maximal run of decimal digits and its value. -/
def parseNatNum (cs : List Char) : Option (Nat × List Char) :=
  let ds := cs.takeWhile Char.isDigit
  if ds.isEmpty then none
  else some (digitsToNat ds, cs.dropWhile Char.isDigit)

/-- A JSON number (integers; fractions and exponents are outside the
modelled value space). -/
def parseNumber (cs : List Char) : Option (Json × List Char) :=
  match cs with
  | '-' :: rest => (parseNatNum rest).map (fun r => (Json.num (-(r.1 : Int)), r.2))
  | _ => (parseNatNum cs).map (fun r => (Json.num ((r.1 : Nat) : Int), r.2))

mutual

/-- A JSON value, fuel-indexed (the fuel only bounds bracket nesting). -/
def parseValue : Nat → List Char → Option (Json × List Char)
  | 0, _ => none
  | fuel + 1, cs =>
    match skipWs cs with
    | [] => none
    | c :: rest =>
      if c = 'n' then
        match rest with
        | 'u' :: 'l' :: 'l' :: r => some (.null, r)
        | _ => none
      else if c = 't' then
        match rest with
        | 'r' :: 'u' :: 'e' :: r => some (.bool true, r)
        | _ => none
      else if c = 'f' then
        match rest with
        | 'a' :: 'l' :: 's' :: 'e' :: r => some (.bool false, r)
        | _ => none
      else if c = '"' then
        (parseStringBody rest).map (fun r => (.str ⟨r.1⟩, r.2))
      else if c = '[' then
        match skipWs rest with
        | [] => none
        | c2 :: rest2 =>
          if c2 = ']' then some (.arr [], rest2)
          else (parseArrItems fuel rest).map (fun r => (.arr r.1, r.2))
      else if c = '\x7b' then
        match skipWs rest with
        | [] => none
        | c2 :: rest2 =>
          if c2 = '\x7d' then some (.obj [], rest2)
          else (parseObjItems fuel rest).map (fun r => (.obj r.1, r.2))
      else parseNumber (c :: rest)

/-- One or more comma-separated array elements followed by `]`. -/
def parseArrItems : Nat → List Char → Option (List Json × List Char)
  | 0, _ => none
  | fuel + 1, cs =>
    match parseValue fuel cs with
    | none => none
    | some (v, r) =>
      match skipWs r with
      | [] => none
      | c :: r2 =>
        if c = ',' then (parseArrItems fuel r2).map (fun q => (v :: q.1, q.2))
        else if c = ']' then some ([v], r2)
        else none

/-- One or more comma-separated `"key":value` fields followed by the
closing brace. -/
def parseObjItems : Nat → List Char → Option (List (String × Json) × List Char)
  | 0, _ => none
  | fuel + 1, cs =>
    match skipWs cs with
    | [] => none
    | c :: rest =>
      if c = '"' then
        match parseStringBody rest with
        | none => none
        | some (key, r) =>
          match skipWs r with
          | [] => none
          | c2 :: r2 =>
            if c2 = ':' then
              match parseValue fuel r2 with
              | none => none
              | some (v, r3) =>
                match skipWs r3 with
                | [] => none
                | c3 :: r4 =>
                  if c3 = ',' then
                    (parseObjItems fuel r4).map (fun q => ((⟨key⟩, v) :: q.1, q.2))
                  else if c3 = '\x7d' then some ([(⟨key⟩, v)], r4)
                  else none
            else none
      else none

end

/-- `JSON.parse` on the modelled JSON values: the whole string must be one
JSON value up to surrounding whitespace, `none` models a thrown
SyntaxError. -/
def jsonParse (s : String) : Option Json :=
  match parseValue (s.data.length + 1) s.data with
  | some (v, rest) => if skipWs rest = [] then some v else none
  | none => none

mutual

/-- Fuel sufficient for `parseValue` on the stringification of a value. -/
def jfuel : Json → Nat
  | .null => 1
  | .bool _ => 1
  | .num _ => 1
  | .str _ => 1
  | .arr xs => 1 + jfuelArr xs
  | .obj fs => 1 + jfuelObj fs

def jfuelArr : List Json → Nat
  | [] => 0
  | x :: t => jfuel x + 1 + jfuelArr t

def jfuelObj : List (String × Json) → Nat
  | [] => 0
  | (_, v) :: t => jfuel v + 1 + jfuelObj t

end

/-- `localStorage.getItem`. -/
def lsGetItem (ls : List (String × String)) (key : String) : Option String :=
  (ls.find? (fun e => e.1 = key)).map (·.2)

/-- `localStorage.setItem`: the new binding shadows any previous one. -/
def lsSetItem (ls : List (String × String)) (key val : String) :
    List (String × String) :=
  (key, val) :: ls

/-- `Utils.storage.get`: `JSON.parse(localStorage.getItem(key))` inside
try/catch.  An absent key gives `getItem` = `null`, which `JSON.parse`
coerces to the string `"null"` and parses to the JSON value `null`; a parse
error is caught and yields `null` as well. -/
def storageGet (ls : List (String × String)) (key : String) : Json :=
  match lsGetItem ls key with
  | none => Json.null
  | some s =>
    match jsonParse s with
    | some v => v
    | none => Json.null

/-- `Utils.storage.set`: `localStorage.setItem(key, JSON.stringify(value))`
inside try/catch, returning whether the write succeeded; `writeOk` models
the environment (quota, privacy mode) making `setItem` throw. -/
def storageSet (writeOk : Bool) (ls : List (String × String)) (key : String)
    (v : Json) : Bool × List (String × String) :=
  if writeOk then (true, lsSetItem ls key (Json.stringify v))
  else (false, ls)

/-- The head of the remaining input is not a digit (so a number parse
cannot run past its value). -/
def HeadNotDigit : List Char → Prop
  | [] => True
  | c :: _ => c.isDigit = false

/-- The filtering invariant of claim C3: exactly one button is active, and a
card is displayed iff its company equals the active button's filter. -/
def FilterInv (v : ProjectsView) : Prop :=
  ∃ (i : Nat) (ab : FilterButton), v.buttons[i]? = some ab ∧ ab.active = true ∧
    (∀ (j : Nat) (b : FilterButton), v.buttons[j]? = some b → (b.active = true ↔ j = i)) ∧
    (∀ card ∈ v.cards, card.displayed = true ↔ card.company = ab.filter)

/-- The theme-storage invariant of claim C8: the stored preference exists,
equals the manager's current theme, and is `'light'` or `'dark'`. -/
def ThemeInv (st : ThemeState) : Prop :=
  st.stored = some st.currentTheme ∧
  (st.currentTheme = "light" ∨ st.currentTheme = "dark")

/-! ## Theorems -/

/-- C1: `validateField` returns `false` exactly when (a) the field is
required and its trimmed value is empty, or (b) it is an email field whose
nonempty trimmed value fails `isValidEmail`, or (c) its trimmed value is
nonempty, a `minLength` is declared (the DOM property is nonnegative), and
the value is shorter; and `handleSubmit` submits nothing when `validateForm`
(the conjunction of `validateField` over the required fields) is false. -/
theorem validateField_spec (f : FormField) (fields : List FormField) :
    (validateField f = false ↔
      ((f.required = true ∧ jsTrim f.value = "") ∨
       (f.type = "email" ∧ jsTrim f.value ≠ "" ∧
         isValidEmail (jsTrim f.value) = false) ∨
       (jsTrim f.value ≠ "" ∧ 0 ≤ f.minLength ∧
         ((jsTrim f.value).length : Int) < f.minLength))) ∧
    (validateForm fields = false → handleSubmit fields = none) := by
  constructor
  · have harith : (¬f.minLength = 0 ∧ ((jsTrim f.value).length : Int) < f.minLength) ↔
        (0 ≤ f.minLength ∧ ((jsTrim f.value).length : Int) < f.minLength) := by
      constructor
      · rintro ⟨h1, h2⟩; exact ⟨by omega, h2⟩
      · rintro ⟨h1, h2⟩; exact ⟨by omega, h2⟩
    simp only [validateField, Bool.not_eq_false', Bool.or_eq_true, Bool.and_eq_true,
      decide_eq_true_eq, Bool.not_eq_true', ne_eq]
    tauto
  · intro h
    simp [handleSubmit, h]

/-- Witness for C1 at a concrete form: a required empty field fails
validation and blocks submission. -/
theorem validateField_spec_witness :
    validateForm [⟨"text", true, -1, " "⟩] = false ∧
    handleSubmit [⟨"text", true, -1, " "⟩] = none :=
  ⟨by decide,
   (validateField_spec ⟨"text", true, -1, " "⟩ [⟨"text", true, -1, " "⟩]).2 (by decide)⟩

/-- C2: from a current theme in \x7blight, dark\x7d, `toggleTheme` switches
to the other theme, sets the `data-theme` attribute to it, stores it under
`'portfolio-theme'`, and toggling twice restores the original theme. -/
theorem toggleTheme_spec (st : ThemeState)
    (h : st.currentTheme = "light" ∨ st.currentTheme = "dark") :
    (st.currentTheme = "light" →
      (toggleTheme st).currentTheme = "dark" ∧
      (toggleTheme st).dataTheme = some "dark" ∧
      (toggleTheme st).stored = some "dark") ∧
    (st.currentTheme = "dark" →
      (toggleTheme st).currentTheme = "light" ∧
      (toggleTheme st).dataTheme = some "light" ∧
      (toggleTheme st).stored = some "light") ∧
    (toggleTheme (toggleTheme st)).currentTheme = st.currentTheme := by
  rcases h with h | h <;> rw [toggleTheme, toggleTheme] <;> simp [h, applyTheme]

/-- Witness for C2 at a concrete light-theme state. -/
theorem toggleTheme_spec_witness :
    (toggleTheme ⟨"light", some "light", some "light", some "#ffffff"⟩).currentTheme = "dark" ∧
    (toggleTheme (toggleTheme ⟨"light", some "light", some "light", some "#ffffff"⟩)).currentTheme
      = "light" := by
  have h := toggleTheme_spec ⟨"light", some "light", some "light", some "#ffffff"⟩ (Or.inl rfl)
  exact ⟨(h.1 rfl).1, h.2.2⟩

/-- C8: construction from a reachable storage state establishes the
invariant that the stored value exists, equals `currentTheme`, and is
`'light'` or `'dark'`; `applyTheme` (on the themes the code passes it),
`toggleTheme` and `setTheme` maintain it; `setTheme` on any argument outside
\x7blight, dark\x7d changes nothing; and under the invariant the
system-theme-change listener's guarded branch never runs, so the listener
changes nothing. -/
theorem themeManager_invariant_spec (st : ThemeState) :
    ((st.stored = none ∨ st.stored = some "light" ∨ st.stored = some "dark") →
      ∀ sys, (sys = "light" ∨ sys = "dark") →
        ThemeInv (constructTheme sys st)) ∧
    (∀ theme, (theme = "light" ∨ theme = "dark") →
      ThemeInv (applyTheme theme st)) ∧
    ThemeInv (toggleTheme st) ∧
    (∀ theme, ThemeInv st → ThemeInv (setTheme theme st)) ∧
    (∀ theme, ¬(theme = "light" ∨ theme = "dark") → setTheme theme st = st) ∧
    (∀ m, ThemeInv st → systemThemeChange m st = st) := by
  refine ⟨?_, ?_, ?_, ?_, ?_, ?_⟩
  · rintro (h | h | h) sys (hs | hs) <;>
      simp [constructTheme, initialTheme, applyTheme, ThemeInv, h, hs]
  · rintro theme (h | h) <;> simp [applyTheme, ThemeInv, h]
  · rw [toggleTheme]
    by_cases h : st.currentTheme = "light" <;> simp [h, applyTheme, ThemeInv]
  · intro theme hinv
    rw [setTheme]
    by_cases h : theme = "light" ∨ theme = "dark"
    · rcases h with h | h <;> simp [h, applyTheme, ThemeInv]
    · simp [h, hinv]
  · intro theme h
    simp [setTheme, h]
  · intro m hinv
    obtain ⟨h1, h2⟩ := hinv
    rcases h2 with h2 | h2 <;> simp [systemThemeChange, h1, h2]

/-- The fold underlying `jsSetDedup` only ever appends to its accumulator. -/
theorem foldl_dedup_append {α : Type} [DecidableEq α] (xs : List α) (acc : List α) :
    ∃ t, xs.foldl (fun a c => if c ∈ a then a else a ++ [c]) acc = acc ++ t := by
  induction xs generalizing acc with
  | nil => exact ⟨[], by simp⟩
  | cons x xs ih =>
    simp only [List.foldl_cons]
    by_cases h : x ∈ acc
    · simpa [h] using ih acc
    · obtain ⟨t, ht⟩ := ih (acc ++ [x])
      exact ⟨x :: t, by simp [h, ht]⟩

/-- `jsSetDedup` keeps the first element of a nonempty list first. -/
theorem jsSetDedup_cons {α : Type} [DecidableEq α] (x : α) (xs : List α) :
    ∃ t, jsSetDedup (x :: xs) = x :: t := by
  unfold jsSetDedup
  simp only [List.foldl_cons, List.not_mem_nil, if_false, List.nil_append]
  obtain ⟨t, ht⟩ := foldl_dedup_append xs [x]
  exact ⟨t, by simpa using ht⟩

/-- Buttons of `generateProjectFilters` at index `j` carry the `j`-th
distinct company and are active exactly at index `0`. -/
theorem generateProjectFilters_getElem? (projects : List Project) (j : Nat) :
    (generateProjectFilters projects)[j]? =
      (jsSetDedup (projects.map (·.company)))[j]?.map
        (fun c => ⟨c, decide (j = 0)⟩) := by
  simp [generateProjectFilters, List.getElem?_map, List.getElem?_enum,
    Option.map_map, Function.comp_def]

/-- Cards after `applyProjectFilter` are displayed iff their company matches
the filter. -/
theorem applyProjectFilter_displayed (cards : List ProjectCard) (filter : String) :
    ∀ card ∈ applyProjectFilter cards filter,
      card.displayed = true ↔ card.company = filter := by
  intro card hcard
  obtain ⟨c, _, rfl⟩ := List.mem_map.mp hcard
  simp

/-- C3: after rendering a nonempty project list, exactly one filter button is
active — the one for the first distinct company in first-occurrence order —
and a card is displayed iff its `data-company` equals the active button's
filter; every click on a filter button re-establishes this invariant. -/
theorem projectFiltering_spec (p : Project) (ps : List Project) :
    FilterInv (renderProjectsFiltering (p :: ps)) ∧
    (renderProjectsFiltering (p :: ps)).buttons[0]? = some ⟨p.company, true⟩ ∧
    (∀ v : ProjectsView, ∀ i, i < v.buttons.length → FilterInv (clickFilter v i)) := by
  obtain ⟨t, ht⟩ := jsSetDedup_cons p.company (ps.map (·.company))
  have hdedup : jsSetDedup ((p :: ps).map (·.company)) = p.company :: t := by
    simpa using ht
  have hrender : renderProjectsFiltering (p :: ps) =
      ⟨generateProjectFilters (p :: ps),
        applyProjectFilter ((p :: ps).map fun pr => ⟨pr.company, true⟩) p.company⟩ := by
    have hgen0 : (generateProjectFilters (p :: ps))[0]? =
        some ⟨p.company, true⟩ := by
      rw [generateProjectFilters_getElem?, hdedup]; simp
    simp only [renderProjectsFiltering]
    match hg : generateProjectFilters (p :: ps) with
    | [] => rw [hg] at hgen0; simp at hgen0
    | b :: bs =>
      rw [hg] at hgen0
      simp only [List.getElem?_cons_zero, Option.some.injEq] at hgen0
      rw [hgen0]
  have hclick : ∀ v : ProjectsView, ∀ i, i < v.buttons.length →
      FilterInv (clickFilter v i) := by
    intro v i hi
    obtain ⟨b, hb⟩ : ∃ b : FilterButton, v.buttons[i]? = some b :=
      ⟨_, List.getElem?_eq_getElem hi⟩
    have hget : ∀ j, (clickFilter v i).buttons[j]? =
        v.buttons[j]?.map (fun bb : FilterButton => { bb with active := decide (j = i) }) := by
      intro j
      simp [clickFilter, hb, List.getElem?_map, List.getElem?_enum,
        Option.map_map, Function.comp_def]
    refine ⟨i, { b with active := true }, ?_, rfl, ?_, ?_⟩
    · rw [hget i, hb]; simp
    · intro j bb hbb
      rw [hget j] at hbb
      obtain ⟨bb0, _, rfl⟩ := Option.map_eq_some'.mp hbb
      simp
    · have := applyProjectFilter_displayed v.cards b.filter
      simpa [clickFilter, hb] using this
  refine ⟨?_, ?_, hclick⟩
  · refine ⟨0, ⟨p.company, true⟩, ?_, rfl, ?_, ?_⟩
    · rw [hrender]
      rw [generateProjectFilters_getElem?, hdedup]; simp
    · intro j bb hbb
      rw [hrender] at hbb
      rw [generateProjectFilters_getElem?, hdedup] at hbb
      obtain ⟨c, _, rfl⟩ := Option.map_eq_some'.mp hbb
      simp
    · rw [hrender]
      exact applyProjectFilter_displayed _ _
  · rw [hrender]
    rw [generateProjectFilters_getElem?, hdedup]; simp

/-- Witness for C3 on a concrete three-project list with two companies,
clicking the second filter button. -/
theorem projectFiltering_spec_witness :
    FilterInv (renderProjectsFiltering [⟨"A", "t1"⟩, ⟨"B", "t2"⟩, ⟨"A", "t3"⟩]) ∧
    FilterInv (clickFilter
      (renderProjectsFiltering [⟨"A", "t1"⟩, ⟨"B", "t2"⟩, ⟨"A", "t3"⟩]) 1) := by
  have h := projectFiltering_spec ⟨"A", "t1"⟩ [⟨"B", "t2"⟩, ⟨"A", "t3"⟩]
  exact ⟨h.1, h.2.2 _ 1 (by decide)⟩

/-- Witness for C8: construction from empty storage on a light system. -/
theorem themeManager_invariant_spec_witness :
    ThemeInv (constructTheme "light" ⟨"", none, none, none⟩) ∧
    setTheme "purple" ⟨"light", some "light", some "light", none⟩ =
      ⟨"light", some "light", some "light", none⟩ := by
  have h := themeManager_invariant_spec ⟨"", none, none, none⟩
  have h' := themeManager_invariant_spec ⟨"light", some "light", some "light", none⟩
  exact ⟨h.1 (Or.inl rfl) "light" (Or.inl rfl), h'.2.2.2.2.1 "purple" (by decide)⟩

/-- A truthy JSON value is not `null`. -/
theorem Json.truthy_ne_null (v : Json) (h : v.truthy = true) : v ≠ Json.null := by
  cases v <;> simp_all [Json.truthy]

/-- Generic form of the cache property: every entry produced by the
`loadAllData` fold comes from a file whose fetch returned that truthy
value. -/
theorem loadAllData_fold_mem (env : String → FetchOutcome) (fs : List String)
    (k : String) (v : Json)
    (h : (k, v) ∈ fs.foldr
      (fun file cache =>
        if (fetchData (env file)).truthy then (dataKey file, fetchData (env file)) :: cache
        else cache) []) :
    ∃ file ∈ fs, k = dataKey file ∧ fetchData (env file) = v ∧ v.truthy = true := by
  induction fs with
  | nil => simp at h
  | cons f fs ih =>
    simp only [List.foldr_cons] at h
    by_cases hf : (fetchData (env f)).truthy
    · rw [if_pos hf] at h
      rcases List.mem_cons.mp h with h | h
      · rw [Prod.mk.injEq] at h
        obtain ⟨hk, hv⟩ := h
        exact ⟨f, List.mem_cons_self f fs, hk, hv.symm, by rw [hv]; exact hf⟩
      · obtain ⟨file, hmem, rest⟩ := ih h
        exact ⟨file, List.mem_cons_of_mem f hmem, rest⟩
    · rw [if_neg hf] at h
      obtain ⟨file, hmem, rest⟩ := ih h
      exact ⟨file, List.mem_cons_of_mem f hmem, rest⟩

/-- C4: `fetchData` returns the parsed JSON body when the response is ok,
and `null` — it is a total function, never a propagated exception — when the
request rejects, the response is not ok, or the body is invalid JSON; and
every `loadAllData` cache entry comes from a data file whose fetch returned
that truthy (hence non-null) value. -/
theorem fetchData_loadAllData_spec :
    (∀ v : Json, fetchData (.resp true (some v)) = v) ∧
    (∀ body, fetchData (.resp false body) = Json.null) ∧
    fetchData .netFail = Json.null ∧
    (∀ ok, fetchData (.resp ok none) = Json.null) ∧
    (∀ (env : String → FetchOutcome) (k : String) (v : Json),
      (k, v) ∈ loadAllData env →
        ∃ file ∈ dataFiles, k = dataKey file ∧ fetchData (env file) = v ∧
          v ≠ Json.null) := by
  refine ⟨fun v => rfl, fun body => rfl, rfl, fun ok => by cases ok <;> rfl, ?_⟩
  intro env k v h
  obtain ⟨file, hmem, hk, hv, ht⟩ := loadAllData_fold_mem env dataFiles k v h
  exact ⟨file, hmem, hk, hv, Json.truthy_ne_null v ht⟩

/-- Witness for C4: an environment where every fetch returns the ok JSON
body `"x"` caches it under the key of the about file. -/
theorem fetchData_loadAllData_spec_witness :
    ∃ file ∈ dataFiles, "about" = dataKey file ∧
      fetchData ((fun _ => .resp true (some (Json.str "x"))) file) = Json.str "x" ∧
      Json.str "x" ≠ Json.null := by
  refine fetchData_loadAllData_spec.2.2.2.2 (fun _ => .resp true (some (Json.str "x")))
    "about" (Json.str "x") ?_
  have : loadAllData (fun _ => .resp true (some (Json.str "x"))) =
      [("about", Json.str "x"), ("projects", Json.str "x"), ("experience", Json.str "x"),
       ("skills", Json.str "x"), ("certifications", Json.str "x"),
       ("contact", Json.str "x")] := rfl
  rw [this]
  exact List.mem_cons_self _ _

/-- The section-selection fold returns the last matching id, starting from a
default. -/
theorem foldl_lastMatch (p : PageSection → Bool) (l : List PageSection) :
    ∀ acc : String,
      l.foldl (fun a s => if p s then s.id else a) acc =
        ((l.filter p).map (·.id)).getLastD acc := by
  induction l with
  | nil => intro acc; rfl
  | cons s t ih =>
    intro acc
    by_cases h : p s
    · rw [List.foldl_cons, if_pos h, ih s.id, List.filter_cons_of_pos h,
        List.map_cons, List.getLastD_cons]
    · rw [List.foldl_cons, if_neg h, ih acc, List.filter_cons_of_neg h]

/-- C5: `updateActiveNavLink` computes the reference point
`scrollY + navbarHeight + 100`; the selected section is the last one in
document order whose interval contains it (`''` when none does); afterwards
`currentSection` equals that selection, a link is active iff its href is
`'#' + activeSection` (given the classes were consistent beforehand), and
when no section contains the point no link is active (given no link's href
is the bare `'#'`). -/
theorem updateActiveNavLink_spec (sections : List PageSection)
    (navbarHeight scrollY : Int) (st : NavState)
    (hcons : NavConsistent st)
    (hhref : ∀ l ∈ st.links, l.href ≠ "#") :
    computeActiveSection sections (scrollY + navbarHeight + 100) =
      ((sections.filter (sectionContainsPos (scrollY + navbarHeight + 100))).map
        (·.id)).getLastD "" ∧
    (updateActiveNavLink sections navbarHeight scrollY st).currentSection =
      computeActiveSection sections (scrollY + navbarHeight + 100) ∧
    (∀ l ∈ (updateActiveNavLink sections navbarHeight scrollY st).links,
      l.active = true ↔
        l.href = "#" ++ computeActiveSection sections (scrollY + navbarHeight + 100)) ∧
    ((∀ s ∈ sections, sectionContainsPos (scrollY + navbarHeight + 100) s = false) →
      ∀ l ∈ (updateActiveNavLink sections navbarHeight scrollY st).links,
        l.active = false) := by
  set pos := scrollY + navbarHeight + 100 with hpos
  set act := computeActiveSection sections pos with hact
  have hchar : act = ((sections.filter (sectionContainsPos pos)).map (·.id)).getLastD "" := by
    rw [hact, computeActiveSection]
    exact foldl_lastMatch _ sections ""
  have hlinks : ∀ l ∈ (updateActiveNavLink sections navbarHeight scrollY st).links,
      l.active = true ↔ l.href = "#" ++ act := by
    intro l hl
    rw [updateActiveNavLink] at hl
    by_cases heq : act = st.currentSection
    · rw [if_pos heq] at hl
      rw [heq]
      exact hcons l hl
    · rw [if_neg heq] at hl
      obtain ⟨l0, _, rfl⟩ := List.mem_map.mp hl
      simp
  have hhref' : ∀ l ∈ (updateActiveNavLink sections navbarHeight scrollY st).links,
      l.href ≠ "#" := by
    intro l hl
    rw [updateActiveNavLink] at hl
    by_cases heq : act = st.currentSection
    · rw [if_pos heq] at hl
      exact hhref l hl
    · rw [if_neg heq] at hl
      obtain ⟨l0, hl0, rfl⟩ := List.mem_map.mp hl
      exact hhref l0 hl0
  refine ⟨hchar, ?_, hlinks, ?_⟩
  · rw [updateActiveNavLink]
    by_cases heq : act = st.currentSection
    · rw [if_pos heq]
      exact heq.symm
    · rw [if_neg heq]
  · intro hnone l hl
    have hempty : sections.filter (sectionContainsPos pos) = [] :=
      List.filter_eq_nil_iff.mpr (fun s hs => by simp [hnone s hs])
    have hact0 : act = "" := by rw [hchar, hempty]; rfl
    have := hlinks l hl
    rw [hact0] at this
    by_cases ha : l.active = true
    · exfalso
      exact hhref' l hl (by simpa using this.mp ha)
    · simpa using ha

/-- Witness for C5: scrolled into the about section of a concrete page. -/
theorem updateActiveNavLink_spec_witness :
    (updateActiveNavLink [⟨"home", 0, 500⟩, ⟨"about", 500, 400⟩] 70 400
        ⟨"home", [⟨"#home", true⟩, ⟨"#about", false⟩]⟩).currentSection =
      computeActiveSection [⟨"home", 0, 500⟩, ⟨"about", 500, 400⟩] (400 + 70 + 100) :=
  (updateActiveNavLink_spec [⟨"home", 0, 500⟩, ⟨"about", 500, 400⟩] 70 400
    ⟨"home", [⟨"#home", true⟩, ⟨"#about", false⟩]⟩
    (by simp only [NavConsistent]; decide) (by decide)).2.1

/-- From a pending timer scheduled by a call at time `t` with argument `a`,
the operational debounce semantics produces the declarative timeline of
`(t, a)` followed by the remaining calls. -/
theorem debounceRun_pending {α : Type} (wait : Nat) (rest : List (Nat × α)) :
    ∀ (t : Nat) (a : α),
      debounceRun wait (some (t + wait, a)) rest =
        debounceSpecFires wait ((t, a) :: rest) := by
  induction rest with
  | nil => intro t a; rfl
  | cons x rest ih =>
    intro t a
    obtain ⟨t2, b⟩ := x
    by_cases h : t + wait < t2 <;>
      simp [debounceRun, debounceSpecFires, h, ih]

/-- Membership in the declarative timeline: an invocation exists for exactly
the calls whose successor (if any) arrives strictly more than `wait`
later. -/
theorem mem_debounceSpecFires {α : Type} (wait : Nat) (calls : List (Nat × α))
    (x : Nat × α) :
    x ∈ debounceSpecFires wait calls ↔
      ∃ (i : Nat) (c : Nat × α), calls[i]? = some c ∧ x = (c.1 + wait, c.2) ∧
        (∀ c2, calls[i + 1]? = some c2 → c.1 + wait < c2.1) := by
  induction calls with
  | nil =>
    simp [debounceSpecFires]
  | cons hd tl ih =>
    obtain ⟨t, a⟩ := hd
    match tl with
    | [] =>
      constructor
      · intro hx
        rw [debounceSpecFires] at hx
        rcases List.mem_singleton.mp hx with rfl
        exact ⟨0, (t, a), rfl, rfl, by intro c2 hc2; simp at hc2⟩
      · rintro ⟨i, c, hi, rfl, _⟩
        match i with
        | 0 =>
          simp only [List.getElem?_cons_zero, Option.some.injEq] at hi
          rw [← hi]
          simp [debounceSpecFires]
        | j + 1 =>
          simp at hi
    | (t2, b) :: tl2 =>
      constructor
      · intro hx
        by_cases h : t + wait < t2
        · rw [debounceSpecFires, if_pos h] at hx
          rcases List.mem_cons.mp hx with rfl | hx
          · refine ⟨0, (t, a), rfl, rfl, ?_⟩
            intro c2 hc2
            simp only [List.getElem?_cons_succ, List.getElem?_cons_zero,
              Option.some.injEq] at hc2
            rw [← hc2]
            exact h
          · obtain ⟨j, c, hj, hx, hnext⟩ := ih.mp hx
            exact ⟨j + 1, c, by simpa using hj, hx,
              fun c2 hc2 => hnext c2 (by simpa using hc2)⟩
        · rw [debounceSpecFires, if_neg h] at hx
          obtain ⟨j, c, hj, hx, hnext⟩ := ih.mp hx
          exact ⟨j + 1, c, by simpa using hj, hx,
            fun c2 hc2 => hnext c2 (by simpa using hc2)⟩
      · rintro ⟨i, c, hi, rfl, hnext⟩
        match i with
        | 0 =>
          simp only [List.getElem?_cons_zero, Option.some.injEq] at hi
          rcases hi with rfl
          have h : t + wait < t2 := by simpa using hnext (t2, b) (by simp)
          rw [debounceSpecFires, if_pos h]
          exact List.mem_cons_self _ _
        | j + 1 =>
          simp only [List.getElem?_cons_succ] at hi
          have hmem : (c.1 + wait, c.2) ∈ debounceSpecFires wait ((t2, b) :: tl2) :=
            ih.mpr ⟨j, c, hi, rfl, fun c2 hc2 => hnext c2 (by simpa using hc2)⟩
          by_cases h : t + wait < t2
          · rw [debounceSpecFires, if_pos h]
            exact List.mem_cons_of_mem _ hmem
          · rw [debounceSpecFires, if_neg h]
            exact hmem

/-- C7: the operational debounce semantics equals the declarative timeline —
every call replaces the pending timer, so `func` runs exactly for the calls
with no successor within `wait` milliseconds (once per burst, with the last
burst call's arguments, `wait` after it), and never for a superseded call. -/
theorem debounce_spec {α : Type} (wait : Nat) (calls : List (Nat × α))
    (x : Nat × α) :
    debounce wait calls = debounceSpecFires wait calls ∧
    (x ∈ debounce wait calls ↔
      ∃ (i : Nat) (c : Nat × α), calls[i]? = some c ∧ x = (c.1 + wait, c.2) ∧
        (∀ c2, calls[i + 1]? = some c2 → c.1 + wait < c2.1)) := by
  have heq : debounce wait calls = debounceSpecFires wait calls := by
    match calls with
    | [] => rfl
    | (t, a) :: rest =>
      rw [debounce, debounceRun]
      exact debounceRun_pending wait rest t a
  exact ⟨heq, heq ▸ mem_debounceSpecFires wait calls x⟩

/-- Witness for C7: with `wait = 10` and calls at 0, 5 and 30, the call at 0
is superseded by the call at 5; `func` runs at 15 with the second call's
argument. -/
theorem debounce_spec_witness :
    (15, "b") ∈ debounce 10 [(0, "a"), (5, "b"), (30, "c")] :=
  (debounce_spec 10 [(0, "a"), (5, "b"), (30, "c")] (15, "b")).2.mpr
    ⟨1, (5, "b"), rfl, rfl, by
      intro c2 hc2
      simp only [List.getElem?_cons_succ, List.getElem?_cons_zero,
        Option.some.injEq] at hc2
      rw [← hc2]
      decide⟩

/-- C6: the section render functions read only the renderer's data cache;
when the cache holds no entry under their key they return without writing,
leaving the DOM unchanged — in particular `renderAboutSection` and
`renderProjectsSection`, and likewise `renderContactSection` on absent
data. -/
theorem renderSections_absent_spec (cache : List (String × Json)) (dom : Dom) :
    (cacheGet cache "about" = none → renderAboutSection cache dom = some dom) ∧
    (cacheGet cache "projects" = none → renderProjectsSection cache dom = some dom) ∧
    renderContactSection none dom = dom := by
  refine ⟨fun h => ?_, fun h => ?_, rfl⟩
  · simp [renderAboutSection, h]
  · simp [renderProjectsSection, h]

/-- Witness for C6: the empty cache leaves a fully-populated DOM
untouched. -/
theorem renderSections_absent_spec_witness :
    renderAboutSection [] ⟨some "b", some "f", some "g", some "c", some "s"⟩ =
      some ⟨some "b", some "f", some "g", some "c", some "s"⟩ ∧
    renderProjectsSection [] ⟨some "b", some "f", some "g", some "c", some "s"⟩ =
      some ⟨some "b", some "f", some "g", some "c", some "s"⟩ :=
  ⟨(renderSections_absent_spec [] ⟨some "b", some "f", some "g", some "c", some "s"⟩).1 rfl,
   (renderSections_absent_spec [] ⟨some "b", some "f", some "g", some "c", some "s"⟩).2.1 rfl⟩

/-- C10: with both containers present, `renderContactSection` renders a card
for exactly the entries not titled GitHub, in list order, and the footer
social links for exactly the GitHub/LinkedIn entries; hence a GitHub entry
is excluded from the cards but present in the footer data. -/
theorem renderContact_filter_spec (contacts : List Contact) (dom : Dom)
    (hcards : dom.contactCards.isSome = true)
    (hfooter : dom.footerSocial.isSome = true) :
    (renderContactSection (some contacts) dom).contactCards =
      some (String.join ((contacts.filter (fun c => c.title ≠ "GitHub")).map
        contactCardHtml)) ∧
    (renderContactSection (some contacts) dom).footerSocial =
      some (String.join ((contacts.filter
        (fun c => c.title = "GitHub" || c.title = "LinkedIn")).map
        footerSocialLinkHtml)) ∧
    (∀ c ∈ contacts, c.title = "GitHub" →
      c ∉ contactCardsData contacts ∧ c ∈ socialLinksData contacts) := by
  obtain ⟨s1, h1⟩ := Option.isSome_iff_exists.mp hcards
  obtain ⟨s2, h2⟩ := Option.isSome_iff_exists.mp hfooter
  refine ⟨?_, ?_, ?_⟩
  · simp [renderContactSection, renderFooterSocial, h1, h2, contactCardsData]
  · simp [renderContactSection, renderFooterSocial, h1, h2, socialLinksData]
  · intro c hc ht
    constructor
    · simp [contactCardsData, List.mem_filter, ht]
    · simp [socialLinksData, List.mem_filter, hc, ht]

/-- Witness for C10 on a concrete contact list with a GitHub, a LinkedIn and
an Email entry: the GitHub entry is in the footer social data. -/
theorem renderContact_filter_spec_witness :
    (⟨"GitHub", "https://g", "gi"⟩ : Contact) ∈ socialLinksData
      [⟨"GitHub", "https://g", "gi"⟩, ⟨"LinkedIn", "https://l", "li"⟩,
       ⟨"Email", "mailto:e", "em"⟩] :=
  ((renderContact_filter_spec
    [⟨"GitHub", "https://g", "gi"⟩, ⟨"LinkedIn", "https://l", "li"⟩,
     ⟨"Email", "mailto:e", "em"⟩]
    ⟨none, none, none, some "", some ""⟩ rfl rfl).2.2
    ⟨"GitHub", "https://g", "gi"⟩ (List.mem_cons_self _ _) rfl).2

/-- Dropping whitespace does nothing on a non-whitespace head. -/
theorem skipWs_cons (c : Char) (l : List Char) (h : jsonWs c = false) :
    skipWs (c :: l) = c :: l := by
  simp [skipWs, List.dropWhile_cons, h]

/-- Every character `natToDigits` produces is a decimal digit. -/
theorem natToDigits_mem_digits (n : Nat) :
    ∀ c ∈ natToDigits n, c ∈ ['0', '1', '2', '3', '4', '5', '6', '7', '8', '9'] := by
  induction n using Nat.strong_induction_on with
  | _ n ih =>
    rw [natToDigits]
    split
    · next h =>
      intro c hc
      simp only [List.mem_singleton] at hc
      subst hc
      interval_cases n <;> decide
    · next h =>
      intro c hc
      rcases List.mem_append.mp hc with hc | hc
      · exact ih (n / 10) (Nat.div_lt_self (by omega) (by omega)) c hc
      · simp only [List.mem_singleton] at hc
        subst hc
        have hm : n % 10 < 10 := by omega
        revert hm
        generalize n % 10 = m
        intro hm
        interval_cases m <;> decide

/-- `natToDigits` is never empty. -/
theorem natToDigits_ne_nil (n : Nat) : natToDigits n ≠ [] := by
  rw [natToDigits]
  split
  · simp
  · simp

/-- Appending one digit multiplies the value by ten. -/
theorem digitsToNat_append_last (ds : List Char) (d : Char) :
    digitsToNat (ds ++ [d]) = digitsToNat ds * 10 + (d.toNat - 48) := by
  simp [digitsToNat, List.foldl_append]

/-- Reading back the decimal digits of `n` gives `n`. -/
theorem digitsToNat_natToDigits (n : Nat) : digitsToNat (natToDigits n) = n := by
  induction n using Nat.strong_induction_on with
  | _ n ih =>
    rw [natToDigits]
    split
    · next h =>
      interval_cases n <;> decide
    · next h =>
      rw [digitsToNat_append_last, ih (n / 10) (Nat.div_lt_self (by omega) (by omega))]
      have hd : (Char.ofNat (48 + n % 10)).toNat = 48 + n % 10 := by
        have hm : n % 10 < 10 := by omega
        revert hm
        generalize n % 10 = m
        intro hm
        interval_cases m <;> decide
      rw [hd]
      omega

/-- A digit run followed by a non-digit splits cleanly under
`takeWhile`/`dropWhile`. -/
theorem digits_split (ds rest : List Char)
    (hds : ∀ c ∈ ds, c.isDigit = true) (hrest : HeadNotDigit rest) :
    (ds ++ rest).takeWhile Char.isDigit = ds ∧
    (ds ++ rest).dropWhile Char.isDigit = rest := by
  induction ds with
  | nil =>
    simp only [List.nil_append]
    match rest with
    | [] => exact ⟨rfl, rfl⟩
    | r :: rs =>
      have h : r.isDigit = false := hrest
      constructor
      · simp [List.takeWhile_cons, h]
      · simp [List.dropWhile_cons, h]
  | cons d ds ih =>
    have hd : d.isDigit = true := hds d (List.mem_cons_self d ds)
    obtain ⟨h1, h2⟩ := ih (fun c hc => hds c (List.mem_cons_of_mem d hc))
    constructor
    · simp [List.takeWhile_cons, hd, h1]
    · simp [List.dropWhile_cons, hd, h2]

/-- Digit characters are digits in the `Char.isDigit` sense. -/
theorem mem_digits_isDigit (c : Char)
    (h : c ∈ ['0', '1', '2', '3', '4', '5', '6', '7', '8', '9']) :
    c.isDigit = true := by
  fin_cases h <;> decide

/-- `parseNatNum` inverts `natToDigits` when the remaining input does not
begin with a digit. -/
theorem parseNatNum_natToDigits (n : Nat) (rest : List Char)
    (hrest : HeadNotDigit rest) :
    parseNatNum (natToDigits n ++ rest) = some (n, rest) := by
  obtain ⟨h1, h2⟩ := digits_split (natToDigits n) rest
    (fun c hc => mem_digits_isDigit c (natToDigits_mem_digits n c hc)) hrest
  rw [parseNatNum]
  simp only [h1, h2]
  rw [if_neg (by simpa using natToDigits_ne_nil n)]
  rw [digitsToNat_natToDigits]

/-- Hex digits of values below 16 read back correctly. -/
theorem hexDigitVal_lower (m : Nat) (h : m < 16) :
    hexDigitVal ("0123456789abcdef".data.getD m (Char.ofNat 48)) = some m := by
  interval_cases m <;> decide

/-- The string-body parser inverts `JSON.stringify` escaping. -/
theorem parseStringBody_quote (cs rest : List Char) :
    parseStringBody ((cs.map escapeChar).flatten ++ '"' :: rest) = some (cs, rest) := by
  induction cs with
  | nil =>
    rw [List.map_nil, List.flatten_nil, List.nil_append, parseStringBody.eq_def]
    simp
  | cons c cs ih =>
    rw [List.map_cons, List.flatten_cons, List.append_assoc, escapeChar]
    split_ifs with h1 h2 h3 h4 h5 h6 h7 h8
    · subst h1
      simp only [List.cons_append, List.nil_append]
      rw [parseStringBody.eq_def]
      simp [ih]
    · subst h2
      simp only [List.cons_append, List.nil_append]
      rw [parseStringBody.eq_def]
      simp [ih]
    · subst h3
      simp only [List.cons_append, List.nil_append]
      rw [parseStringBody.eq_def]
      simp [ih]
    · subst h4
      simp only [List.cons_append, List.nil_append]
      rw [parseStringBody.eq_def]
      simp [ih]
    · subst h5
      simp only [List.cons_append, List.nil_append]
      rw [parseStringBody.eq_def]
      simp [ih]
    · subst h6
      simp only [List.cons_append, List.nil_append]
      rw [parseStringBody.eq_def]
      simp [ih]
    · subst h7
      simp only [List.cons_append, List.nil_append]
      rw [parseStringBody.eq_def]
      simp [ih]
    · have e0 : hexDigitVal '0' = some 0 := rfl
      have e1 : hexDigitVal ("0123456789abcdef".data.getD (c.toNat / 16) (Char.ofNat 48)) =
          some (c.toNat / 16) := hexDigitVal_lower _ (by omega)
      have e2 : hexDigitVal ("0123456789abcdef".data.getD (c.toNat % 16) (Char.ofNat 48)) =
          some (c.toNat % 16) := hexDigitVal_lower _ (by omega)
      have e3 : 4096 * 0 + 256 * 0 + 16 * (c.toNat / 16) + c.toNat % 16 = c.toNat := by
        omega
      simp only [List.cons_append, List.nil_append]
      rw [parseStringBody.eq_def]
      simp at e1 e2
      simp [e0, e1, e2, e3, ih]
      have e4 : 16 * (c.toNat / 16) + c.toNat % 16 = c.toNat := by omega
      rw [e4, Char.ofNat_toNat]
    · simp only [List.cons_append, List.nil_append]
      rw [parseStringBody.eq_def]
      simp [h1, h2, ih]

/-- Every JSON value needs at least one unit of fuel. -/
theorem jfuel_pos (v : Json) : 1 ≤ jfuel v := by
  cases v <;> rw [jfuel] <;> omega

/-- A stringified value starts with a character that is not whitespace, not
a closing bracket or brace, and not a comma. -/
theorem stringifyChars_head (v : Json) :
    ∃ c tail, stringifyChars v = c :: tail ∧ jsonWs c = false ∧
      c ≠ ']' ∧ c ≠ '\x7d' ∧ c ≠ ',' := by
  cases v with
  | null =>
    exact ⟨'n', "ull".data, by rw [stringifyChars], by decide, by decide,
      by decide, by decide⟩
  | bool b =>
    cases b
    · exact ⟨'f', "alse".data, by rw [stringifyChars], by decide, by decide,
        by decide, by decide⟩
    · exact ⟨'t', "rue".data, by rw [stringifyChars], by decide, by decide,
        by decide, by decide⟩
  | num n =>
    by_cases hn : n < 0
    · exact ⟨'-', natToDigits (-n).toNat,
        by rw [stringifyChars, intDigits, if_pos hn], by decide, by decide,
        by decide, by decide⟩
    · obtain ⟨d, ds, hds⟩ := List.exists_cons_of_ne_nil (natToDigits_ne_nil n.toNat)
      have hd := natToDigits_mem_digits n.toNat d
        (by rw [hds]; exact List.mem_cons_self _ _)
      refine ⟨d, ds, ?_, ?_, ?_, ?_, ?_⟩
      · rw [stringifyChars, intDigits, if_neg hn, hds]
      · fin_cases hd <;> decide
      · fin_cases hd <;> decide
      · fin_cases hd <;> decide
      · fin_cases hd <;> decide
  | str s =>
    exact ⟨'"', (s.data.map escapeChar).flatten ++ ['"'],
      by rw [stringifyChars, quoteChars]; simp, by decide, by decide, by decide, by decide⟩
  | arr xs =>
    exact ⟨'[', stringifyArrChars xs ++ [']'], by rw [stringifyChars]; simp, by decide,
      by decide, by decide, by decide⟩
  | obj fs =>
    exact ⟨'\x7b', stringifyObjChars fs ++ ['\x7d'], by rw [stringifyChars]; simp, by decide,
      by decide, by decide, by decide⟩

/-- A nonempty stringified array body starts with its first element's
text. -/
theorem stringifyArrChars_head (x : Json) (t : List Json) :
    ∃ tl, stringifyArrChars (x :: t) = stringifyChars x ++ tl := by
  match t with
  | [] => exact ⟨[], by rw [stringifyArrChars, List.append_nil]⟩
  | y :: t2 => exact ⟨',' :: stringifyArrChars (y :: t2), by rw [stringifyArrChars]⟩

/-- A nonempty stringified object body starts with a quote. -/
theorem stringifyObjChars_head (p : String × Json) (t : List (String × Json)) :
    ∃ tl, stringifyObjChars (p :: t) = '"' :: tl := by
  obtain ⟨k, v⟩ := p
  match t with
  | [] =>
    exact ⟨(k.data.map escapeChar).flatten ++ ['"'] ++ ':' :: stringifyChars v,
      by rw [stringifyObjChars, quoteChars]; simp⟩
  | y :: t2 =>
    exact ⟨(k.data.map escapeChar).flatten ++ ['"'] ++ ':' :: stringifyChars v ++
        ',' :: stringifyObjChars (y :: t2),
      by rw [stringifyObjChars, quoteChars]; simp⟩

/-- The parser inverts the stringifier: values, nonempty array bodies and
nonempty object bodies, simultaneously by induction on fuel. -/
theorem roundtripAux (fuel : Nat) :
    (∀ (v : Json) (rest : List Char), jfuel v ≤ fuel → HeadNotDigit rest →
      parseValue fuel (stringifyChars v ++ rest) = some (v, rest)) ∧
    (∀ (xs : List Json) (rest : List Char), xs ≠ [] → jfuelArr xs ≤ fuel →
      parseArrItems fuel (stringifyArrChars xs ++ ']' :: rest) = some (xs, rest)) ∧
    (∀ (fs : List (String × Json)) (rest : List Char), fs ≠ [] → jfuelObj fs ≤ fuel →
      parseObjItems fuel (stringifyObjChars fs ++ '\x7d' :: rest) = some (fs, rest)) := by
  induction fuel with
  | zero =>
    refine ⟨?_, ?_, ?_⟩
    · intro v rest hf _
      have := jfuel_pos v
      omega
    · intro xs rest hne hf
      match xs with
      | x :: t =>
        rw [jfuelArr] at hf
        have := jfuel_pos x
        omega
    · intro fs rest hne hf
      match fs with
      | (k, v) :: t =>
        rw [jfuelObj] at hf
        have := jfuel_pos v
        omega
  | succ f ih =>
    obtain ⟨ihv, iha, iho⟩ := ih
    refine ⟨?_, ?_, ?_⟩
    · intro v rest hf hrest
      match v with
      | .null =>
        rw [stringifyChars, show ("null".data : List Char) = ['n', 'u', 'l', 'l'] from rfl]
        simp only [List.cons_append, List.nil_append]
        rw [parseValue, skipWs_cons _ _ (by decide)]
        simp
      | .bool true =>
        rw [stringifyChars, show ("true".data : List Char) = ['t', 'r', 'u', 'e'] from rfl]
        simp only [List.cons_append, List.nil_append]
        rw [parseValue, skipWs_cons _ _ (by decide)]
        simp
      | .bool false =>
        rw [stringifyChars, show ("false".data : List Char) = ['f', 'a', 'l', 's', 'e'] from rfl]
        simp only [List.cons_append, List.nil_append]
        rw [parseValue, skipWs_cons _ _ (by decide)]
        simp
      | .num n =>
        rw [stringifyChars, intDigits]
        by_cases hn : n < 0
        · rw [if_pos hn]
          simp only [List.cons_append]
          rw [parseValue, skipWs_cons _ _ (by decide)]
          simp only [parseNumber]
          simp
          refine ⟨(-n).toNat, parseNatNum_natToDigits _ _ hrest, by omega⟩
        · rw [if_neg hn]
          obtain ⟨d, ds, hds⟩ := List.exists_cons_of_ne_nil (natToDigits_ne_nil n.toNat)
          have hd := natToDigits_mem_digits n.toNat d
            (by rw [hds]; exact List.mem_cons_self _ _)
          rw [hds]
          simp only [List.cons_append]
          fin_cases hd <;>
          · rw [parseValue, skipWs_cons _ _ (by decide)]
            simp only [parseNumber]
            simp
            refine ⟨n.toNat, ?_, by omega⟩
            rw [← List.cons_append, ← hds]
            exact parseNatNum_natToDigits _ _ hrest
      | .str s =>
        rw [stringifyChars, quoteChars]
        simp only [List.cons_append, List.append_assoc, List.nil_append]
        rw [parseValue, skipWs_cons _ _ (by decide)]
        simp only [show ('"' : Char) ≠ 'n' from by decide, show ('"' : Char) ≠ 't' from by decide,
          show ('"' : Char) ≠ 'f' from by decide, if_false, if_neg, ite_true, if_pos rfl]
        rw [parseStringBody_quote]
        simp
      | .arr xs =>
        rw [stringifyChars]
        simp only [List.cons_append, List.append_assoc, List.nil_append]
        rw [parseValue, skipWs_cons _ _ (by decide)]
        match xs with
        | [] =>
          rw [stringifyArrChars]
          simp only [List.nil_append]
          rw [skipWs_cons _ _ (by decide)]
          simp
        | x :: t =>
          obtain ⟨tl, htl⟩ := stringifyArrChars_head x t
          obtain ⟨c, ctail, hct, hws, hbr, _, _⟩ := stringifyChars_head x
          have hshape : stringifyArrChars (x :: t) ++ ']' :: rest =
              c :: (ctail ++ tl ++ ']' :: rest) := by
            rw [htl, hct]
            simp
          have harr : parseArrItems f (stringifyArrChars (x :: t) ++ ']' :: rest) =
              some (x :: t, rest) := by
            refine iha (x :: t) rest (by simp) ?_
            rw [jfuel] at hf
            omega
          have harr2 := hshape ▸ harr
          have hsk : skipWs (c :: (ctail ++ tl ++ ']' :: rest)) =
              c :: (ctail ++ tl ++ ']' :: rest) := skipWs_cons _ _ hws
          simp only [List.append_assoc] at hsk harr2
          rw [hshape]
          simp [hsk, hbr, harr2]
      | .obj fs =>
        rw [stringifyChars]
        simp only [List.cons_append, List.append_assoc, List.nil_append]
        rw [parseValue, skipWs_cons _ _ (by decide)]
        match fs with
        | [] =>
          rw [stringifyObjChars]
          simp only [List.nil_append]
          rw [skipWs_cons _ _ (by decide)]
          simp
        | p :: t =>
          obtain ⟨tl, htl⟩ := stringifyObjChars_head p t
          have hshape : stringifyObjChars (p :: t) ++ '\x7d' :: rest =
              '"' :: (tl ++ '\x7d' :: rest) := by
            rw [htl]
            simp
          have hobj : parseObjItems f (stringifyObjChars (p :: t) ++ '\x7d' :: rest) =
              some (p :: t, rest) := by
            refine iho (p :: t) rest (by simp) ?_
            rw [jfuel] at hf
            omega
          have hobj2 := hshape ▸ hobj
          have hsk : skipWs ('"' :: (tl ++ '\x7d' :: rest)) =
              '"' :: (tl ++ '\x7d' :: rest) := skipWs_cons _ _ (by decide)
          simp only [List.append_assoc] at hsk hobj2
          rw [hshape]
          simp [hsk, hobj2]
    · intro xs rest hne hf
      match xs with
      | [x] =>
        rw [stringifyArrChars, parseArrItems]
        rw [ihv x (']' :: rest) (by rw [jfuelArr, jfuelArr] at hf; omega) (by rfl)]
        have hsk : skipWs (']' :: rest) = ']' :: rest := skipWs_cons _ _ (by decide)
        simp [hsk]
      | x :: y :: t =>
        rw [stringifyArrChars]
        simp only [List.cons_append, List.append_assoc]
        rw [parseArrItems]
        rw [jfuelArr] at hf
        have hx : jfuel x ≤ f := by
          have h0 : 0 ≤ jfuelArr (y :: t) := Nat.zero_le _
          omega
        rw [ihv x (',' :: (stringifyArrChars (y :: t) ++ ']' :: rest)) hx (by rfl)]
        have hsk : skipWs (',' :: (stringifyArrChars (y :: t) ++ ']' :: rest)) =
            ',' :: (stringifyArrChars (y :: t) ++ ']' :: rest) :=
          skipWs_cons _ _ (by decide)
        have hrec : parseArrItems f (stringifyArrChars (y :: t) ++ ']' :: rest) =
            some (y :: t, rest) := by
          refine iha (y :: t) rest (by simp) ?_
          have := jfuel_pos x
          omega
        simp [hsk, hrec]
    · intro fs rest hne hf
      match fs with
      | [(k, v)] =>
        rw [stringifyObjChars, quoteChars]
        simp only [List.cons_append, List.append_assoc, List.nil_append]
        rw [parseObjItems, skipWs_cons _ _ (by decide)]
        rw [jfuelObj, jfuelObj] at hf
        have h1 := parseStringBody_quote k.data
          (':' :: (stringifyChars v ++ '\x7d' :: rest))
        have hsk1 : skipWs (':' :: (stringifyChars v ++ '\x7d' :: rest)) =
            ':' :: (stringifyChars v ++ '\x7d' :: rest) := skipWs_cons _ _ (by decide)
        have h2 : parseValue f (stringifyChars v ++ '\x7d' :: rest) =
            some (v, '\x7d' :: rest) := ihv v _ (by omega) (by rfl)
        have hsk2 : skipWs ('\x7d' :: rest) = '\x7d' :: rest :=
          skipWs_cons _ _ (by decide)
        simp [h1, hsk1, h2, hsk2]
      | (k, v) :: p2 :: t =>
        rw [stringifyObjChars, quoteChars]
        simp only [List.cons_append, List.append_assoc, List.nil_append]
        rw [parseObjItems, skipWs_cons _ _ (by decide)]
        rw [jfuelObj] at hf
        have hv : jfuel v ≤ f := by
          have h0 : 0 ≤ jfuelObj (p2 :: t) := Nat.zero_le _
          omega
        have h1 := parseStringBody_quote k.data
          (':' :: (stringifyChars v ++ ',' :: (stringifyObjChars (p2 :: t) ++ '\x7d' :: rest)))
        have hsk1 : skipWs (':' :: (stringifyChars v ++ ',' ::
              (stringifyObjChars (p2 :: t) ++ '\x7d' :: rest))) =
            ':' :: (stringifyChars v ++ ',' ::
              (stringifyObjChars (p2 :: t) ++ '\x7d' :: rest)) :=
          skipWs_cons _ _ (by decide)
        have h2 : parseValue f (stringifyChars v ++ ',' ::
              (stringifyObjChars (p2 :: t) ++ '\x7d' :: rest)) =
            some (v, ',' :: (stringifyObjChars (p2 :: t) ++ '\x7d' :: rest)) :=
          ihv v _ hv (by rfl)
        have hsk2 : skipWs (',' :: (stringifyObjChars (p2 :: t) ++ '\x7d' :: rest)) =
            ',' :: (stringifyObjChars (p2 :: t) ++ '\x7d' :: rest) :=
          skipWs_cons _ _ (by decide)
        have hrec : parseObjItems f (stringifyObjChars (p2 :: t) ++ '\x7d' :: rest) =
            some (p2 :: t, rest) := by
          refine iho (p2 :: t) rest (by simp) ?_
          have := jfuel_pos v
          omega
        simp [h1, hsk1, h2, hsk2, hrec]

/-- The fuel bound: parsing the stringification of `v` needs no more fuel
than the text is long. -/
theorem jfuel_le_length (N : Nat) : ∀ (v : Json), sizeOf v ≤ N →
    jfuel v ≤ (stringifyChars v).length := by
  induction N with
  | zero =>
    intro v hv
    exact absurd hv (by cases v <;> simp)
  | succ N ih =>
    intro v hv
    match v with
    | .null =>
      rw [jfuel, stringifyChars]
      decide
    | .bool b =>
      cases b <;> (rw [jfuel, stringifyChars]; decide)
    | .num n =>
      rw [jfuel, stringifyChars]
      have hne : intDigits n ≠ [] := by
        rw [intDigits]
        split
        · simp
        · exact natToDigits_ne_nil _
      have := List.length_pos.mpr hne
      omega
    | .str s =>
      rw [jfuel, stringifyChars, quoteChars]
      simp
    | .arr xs =>
      have hmem : ∀ x ∈ xs, sizeOf x ≤ N := by
        intro x hx
        have h1 := List.sizeOf_lt_of_mem hx
        have h2 : sizeOf (Json.arr xs) = 1 + sizeOf xs := by simp
        omega
      have hsub : ∀ (ys : List Json), (∀ x ∈ ys, sizeOf x ≤ N) →
          jfuelArr ys ≤ (stringifyArrChars ys).length + 1 := by
        intro ys
        induction ys with
        | nil =>
          intro _
          rw [jfuelArr, stringifyArrChars]
          simp
        | cons x t iht =>
          intro hm
          cases t with
          | nil =>
            rw [jfuelArr, jfuelArr, stringifyArrChars]
            have hx := ih x (hm x (List.mem_cons_self _ _))
            omega
          | cons y t2 =>
            rw [jfuelArr, stringifyArrChars]
            have hx := ih x (hm x (List.mem_cons_self _ _))
            have ht := iht (fun z hz => hm z (List.mem_cons_of_mem _ hz))
            simp only [List.length_append, List.length_cons]
            omega
      have h1 := hsub xs hmem
      rw [jfuel, stringifyChars]
      simp only [List.length_cons, List.length_append, List.length_singleton]
      omega
    | .obj fs =>
      have hmem : ∀ p ∈ fs, sizeOf p.2 ≤ N := by
        intro p hp
        have h1 := List.sizeOf_lt_of_mem hp
        have h2 : sizeOf (Json.obj fs) = 1 + sizeOf fs := by simp
        obtain ⟨k2, v2⟩ := p
        have h3 : sizeOf ((k2, v2) : String × Json) = 1 + sizeOf k2 + sizeOf v2 := by
          simp
        simp only [h3] at h1
        show sizeOf v2 ≤ N
        omega
      have hsub : ∀ (ys : List (String × Json)), (∀ p ∈ ys, sizeOf p.2 ≤ N) →
          jfuelObj ys ≤ (stringifyObjChars ys).length + 1 := by
        intro ys
        induction ys with
        | nil =>
          intro _
          rw [jfuelObj, stringifyObjChars]
          simp
        | cons p t iht =>
          intro hm
          obtain ⟨k2, v2⟩ := p
          have hv2 := ih v2 (hm (k2, v2) (List.mem_cons_self _ _))
          cases t with
          | nil =>
            rw [jfuelObj, jfuelObj, stringifyObjChars]
            simp only [List.length_append, List.length_cons]
            omega
          | cons y t2 =>
            rw [jfuelObj, stringifyObjChars]
            have ht := iht (fun z hz => hm z (List.mem_cons_of_mem _ hz))
            simp only [List.length_append, List.length_cons]
            omega
      have h1 := hsub fs hmem
      rw [jfuel, stringifyChars]
      simp only [List.length_cons, List.length_append, List.length_singleton]
      omega

/-- `JSON.parse` inverts `JSON.stringify` on every modelled JSON value. -/
theorem jsonParse_stringify (v : Json) : jsonParse (Json.stringify v) = some v := by
  have hfuel : jfuel v ≤ (stringifyChars v).length + 1 := by
    have := jfuel_le_length (sizeOf v) v (le_refl _)
    omega
  have h := (roundtripAux ((stringifyChars v).length + 1)).1 v [] hfuel trivial
  rw [List.append_nil] at h
  have hd : (Json.stringify v).data = stringifyChars v := rfl
  rw [jsonParse, hd, h]
  simp [skipWs]

/-- C9: when `storage.set(key, v)` reports success, a subsequent
`storage.get(key)` returns `v` (a JSON stringify/parse round-trip);
`storage.get` returns `null` — without throwing — when the key is absent or
the stored string is not valid JSON; and `storage.set` returns `false` —
without throwing — when the underlying write fails, leaving the store
unchanged. -/
theorem storage_spec (writeOk : Bool) (ls : List (String × String))
    (key : String) (v : Json) :
    ((storageSet writeOk ls key v).1 = true →
      storageGet (storageSet writeOk ls key v).2 key = v) ∧
    (lsGetItem ls key = none → storageGet ls key = Json.null) ∧
    (∀ s, lsGetItem ls key = some s → jsonParse s = none →
      storageGet ls key = Json.null) ∧
    (writeOk = false → (storageSet writeOk ls key v).1 = false ∧
      (storageSet writeOk ls key v).2 = ls) := by
  refine ⟨?_, ?_, ?_, ?_⟩
  · intro h
    cases writeOk
    · simp [storageSet] at h
    · simp [storageSet, lsSetItem, storageGet, lsGetItem, jsonParse_stringify v]
  · intro h
    simp [storageGet, h]
  · intro s h1 h2
    simp [storageGet, h1, h2]
  · intro h
    subst h
    exact ⟨rfl, rfl⟩

/-- Witness for C9: a successful write of a nested object (with an escaped
string and a negative number) reads back equal. -/
theorem storage_spec_witness :
    storageGet (storageSet true [] "portfolio-theme"
        (Json.obj [("a", Json.arr [Json.num (-12), Json.str "x\ny"]),
                   ("b", Json.bool true)])).2 "portfolio-theme" =
      Json.obj [("a", Json.arr [Json.num (-12), Json.str "x\ny"]),
                ("b", Json.bool true)] :=
  (storage_spec true [] "portfolio-theme"
    (Json.obj [("a", Json.arr [Json.num (-12), Json.str "x\ny"]),
               ("b", Json.bool true)])).1 rfl

end Portfolio
